import Mathlib

/-!
Shallow embedding of `neural_tangents/utils/kernel.py`: the `Marginalisation`
enumeration and the immutable `Kernel` record with its construction
(`Kernel.__new__`, embedded as `Kernel.new`), replacement (`Kernel._replace`)
and spatial-axis reversal (`Kernel.reverse`) operations.

Python dynamic values are modelled by the inductive type `PyVal`; numeric
multi-dimensional arrays are modelled by `NdArr` (a shape together with a
total element function on multi-indices).
-/

namespace NT

/-- Embedding of the `Marginalisation` IntEnum of `kernel.py` (lines 22-62):
five named constants carrying the ordinals 0..4. -/
inductive Marginalisation where
  | OVER_ALL
  | OVER_PIXELS_AND_POINTS
  | OVER_PIXELS
  | OVER_POINTS
  | NO
  deriving DecidableEq, Fintype, Repr

/-- The integer value carried by each `Marginalisation` member, as assigned in
the source (`OVER_ALL = 0`, ..., `NO = 4`); embeds Python `int(m)`. -/
def Marginalisation.toOrd : Marginalisation → Int
  | .OVER_ALL => 0
  | .OVER_PIXELS_AND_POINTS => 1
  | .OVER_PIXELS => 2
  | .OVER_POINTS => 3
  | .NO => 4

/-- Embedding of the `<` comparison on `Marginalisation`: an `IntEnum`
compares by its integer value. -/
def Marginalisation.lt (a b : Marginalisation) : Bool :=
  a.toOrd < b.toOrd

/-- A multi-dimensional numeric array: a shape and a total element function on
multi-indices (lists of coordinates). Models the `np.ndarray` values held in a
`Kernel`; element values are abstracted to integers, which is faithful for the
axis-permutation bookkeeping this module performs. -/
structure NdArr where
  shape : List Nat
  el : List Nat → Int

/-- A dynamically-typed Python value, covering all values the `kernel.py`
operations can receive or store in a field: a `Marginalisation` member, an
int, a bool, an array, a shape tuple, `None`, or some other object (modelled
by an opaque tag). -/
inductive PyVal where
  | marg (m : Marginalisation)
  | intv (n : Int)
  | boolv (b : Bool)
  | arrv (a : NdArr)
  | shapev (s : List Nat)
  | nonev
  | objv (tag : String)

/-- Embedding of the coercion performed in `Kernel.__new__` and
`Kernel._replace`: `if isinstance(v, Marginalisation): v = int(v)`. Any value
that is a `Marginalisation` member becomes its plain ordinal integer; every
other value passes through unchanged. -/
def pyCoerce (v : PyVal) : PyVal :=
  match v with
  | .marg m => .intv m.toOrd
  | v => v

/-- Python truthiness (`bool(v)`), used to embed `not self.is_reversed`.
For arrays and opaque objects the model uses the object-default `true`
(real NumPy arrays of size other than one raise instead; the operations
verified here only ever negate booleans). -/
def truthy : PyVal → Bool
  | .marg m => m.toOrd != 0
  | .intv n => n != 0
  | .boolv b => b
  | .arrv _ => true
  | .shapev s => !s.isEmpty
  | .nonev => false
  | .objv _ => true

/-- Embedding of Python `not v`: always a bool, the negation of truthiness. -/
def pyNot (v : PyVal) : PyVal :=
  .boolv (!truthy v)

/-- The `Kernel` namedtuple of `kernel.py` (lines 65-70): fourteen fields in
source order; each field holds a dynamically-typed value, as a Python
namedtuple's do. -/
structure Kernel where
  var1 : PyVal
  nngp : PyVal
  var2 : PyVal
  ntk : PyVal
  is_gaussian : PyVal
  is_reversed : PyVal
  marginal : PyVal
  cross : PyVal
  shape1 : PyVal
  shape2 : PyVal
  x1_is_x2 : PyVal
  is_input : PyVal
  mask1 : PyVal
  mask2 : PyVal

/-- Embedding of `Kernel.__new__` (lines 123-187): coerces `marginal` and
`cross` from `Marginalisation` to plain ints, stores every other argument
exactly as given, performs no validation, and always returns a record. -/
def Kernel.new (var1 nngp var2 ntk is_gaussian is_reversed marginal cross
    shape1 shape2 x1_is_x2 is_input mask1 mask2 : PyVal) : Kernel :=
  ⟨var1, nngp, var2, ntk, is_gaussian, is_reversed,
   pyCoerce marginal, pyCoerce cross,
   shape1, shape2, x1_is_x2, is_input, mask1, mask2⟩

/-- A keyword-argument set for `Kernel._replace`: for each field, either no
override (`none`) or an override value (`some v`), in source field order. -/
structure Overrides where
  var1 : Option PyVal
  nngp : Option PyVal
  var2 : Option PyVal
  ntk : Option PyVal
  is_gaussian : Option PyVal
  is_reversed : Option PyVal
  marginal : Option PyVal
  cross : Option PyVal
  shape1 : Option PyVal
  shape2 : Option PyVal
  x1_is_x2 : Option PyVal
  is_input : Option PyVal
  mask1 : Option PyVal
  mask2 : Option PyVal

/-- One field of a `_replace`: keep the current value when no override is
given, otherwise store the override after the `Marginalisation`-to-int
coercion (which `_replace` applies to every supplied keyword value). -/
def applyOv (cur : PyVal) (ov : Option PyVal) : PyVal :=
  match ov with
  | some v => pyCoerce v
  | none => cur

/-- Embedding of `Kernel._replace` (lines 189-194): `namedtuple._replace`
with every supplied keyword value cast from `Marginalisation` to int. -/
def Kernel.replace (k : Kernel) (o : Overrides) : Kernel :=
  ⟨applyOv k.var1 o.var1, applyOv k.nngp o.nngp, applyOv k.var2 o.var2,
   applyOv k.ntk o.ntk, applyOv k.is_gaussian o.is_gaussian,
   applyOv k.is_reversed o.is_reversed, applyOv k.marginal o.marginal,
   applyOv k.cross o.cross, applyOv k.shape1 o.shape1,
   applyOv k.shape2 o.shape2, applyOv k.x1_is_x2 o.x1_is_x2,
   applyOv k.is_input o.is_input, applyOv k.mask1 o.mask1,
   applyOv k.mask2 o.mask2⟩

/-- The number of spatial dimensions described by a `shape1` value: the length
of the shape tuple minus the batch and channel dimensions (e.g. NHWC
`(5, 32, 32, 3)` has two spatial dimensions). Non-tuple values describe no
spatial dimensions. -/
def spatialCount (shape1 : PyVal) : Nat :=
  match shape1 with
  | .shapev s => s.length - 2
  | _ => 0

/-- The axis permutation that reverses the relative order of the `S` trailing
spatial axis pairs of an `n`-dimensional array, fixing the leading batch axes
and preserving each pair's internal order. It is its own inverse. -/
def revPerm (n S i : Nat) : Nat :=
  if i < n - 2 * S then i
  else if i < n then
    n - 2 * S + 2 * (S - 1 - (i - (n - 2 * S)) / 2) + (i - (n - 2 * S)) % 2
  else i

/-- Apply an axis permutation to a multi-index (or to a shape): position `i`
of the result reads position `σ i` of the input. -/
def permuteIdx (σ : Nat → Nat) (l : List Nat) : List Nat :=
  (List.range l.length).map fun i => l.getD (σ i) 0

/-- Modelled from the spec: the external axis-permutation helper
`utils.revert_zipped` (owned by the collaborator utility module, not part of
this source fragment). Given a covariance array and the reference input shape
`shape1`, it keeps the leading batch axes and reverses the relative order of
the trailing spatial axis pairs, preserving each pair's internal order;
`None` (and any non-array value) passes through unchanged. -/
def revert_zipped (mat : PyVal) (shape1 : PyVal) : PyVal :=
  match mat with
  | .arrv a =>
      let S := spatialCount shape1
      let σ := revPerm a.shape.length S
      .arrv ⟨permuteIdx σ a.shape, fun idx => a.el (permuteIdx σ idx)⟩
  | v => v

/-- Embedding of `Kernel.reverse` (lines 196-218): apply `revert_zipped`
(keyed by `shape1`) to `var1`, `nngp`, `var2` and `ntk`, toggle
`is_reversed`, and leave every other field alone — all through `_replace`. -/
def Kernel.reverse (k : Kernel) : Kernel :=
  k.replace
    ⟨some (revert_zipped k.var1 k.shape1), some (revert_zipped k.nngp k.shape1),
     some (revert_zipped k.var2 k.shape1), some (revert_zipped k.ntk k.shape1),
     none, some (pyNot k.is_reversed), none, none, none, none, none, none,
     none, none⟩

/-- Content equality of arrays: same shape and same elements at every
multi-index of the array's rank. -/
def NdArr.contentEq (a b : NdArr) : Prop :=
  a.shape = b.shape ∧ ∀ idx : List Nat, idx.length = a.shape.length → a.el idx = b.el idx

/-- Equality of stored values, with arrays compared by content. -/
def pyValEq (x y : PyVal) : Prop :=
  match x, y with
  | .arrv a, .arrv b => a.contentEq b
  | x, y => x = y

/-- A well-formed covariance entry for a record with reference shape
`shape1`: either `None`, or an array with enough axes to hold one pair of
axes per spatial dimension of `shape1` (leading axes are batch axes). -/
def covOk (v shape1 : PyVal) : Bool :=
  match v with
  | .arrv a => 2 * spatialCount shape1 ≤ a.shape.length
  | .nonev => true
  | _ => false

/-- An array-or-`None` value, the two shapes a covariance field takes. -/
def isCov (v : PyVal) : Bool :=
  match v with
  | .arrv _ => true
  | .nonev => true
  | _ => false

/-- A `marginal`/`cross` field value at information level at least `c`:
an int (or enum member) whose ordinal is at least `c`. -/
def margAtLeast (v : PyVal) (c : Int) : Bool :=
  match v with
  | .intv n => c ≤ n
  | .marg m => c ≤ m.toOrd
  | _ => false

/-- A value acceptable as `marginal`/`cross`: a `Marginalisation` member or a
plain ordinal int in `0..4`. -/
def validOrd (v : PyVal) : Bool :=
  match v with
  | .marg _ => true
  | .intv n => 0 ≤ n && n ≤ 4
  | _ => false

/-- The ordinal logically intended by a `marginal`/`cross` argument: the enum
member's integer value, or the int itself. -/
def ordinalOf (v : PyVal) : Int :=
  match v with
  | .marg m => m.toOrd
  | .intv n => n
  | _ => 0

/-- A `Marginalisation` member (as opposed to any other value). -/
def isMarg (v : PyVal) : Bool :=
  match v with
  | .marg _ => true
  | _ => false

/-- The list of all `Marginalisation` members, in ordinal order. -/
def allMarg : List Marginalisation :=
  [.OVER_ALL, .OVER_PIXELS_AND_POINTS, .OVER_PIXELS, .OVER_POINTS, .NO]

/-- A keyword-argument set overriding only `marginal`. -/
def margOnly (v : PyVal) : Overrides :=
  ⟨none, none, none, none, none, none, some v, none, none, none, none, none,
   none, none⟩

/-- A keyword-argument set overriding only `cross`. -/
def crossOnly (v : PyVal) : Overrides :=
  ⟨none, none, none, none, none, none, none, some v, none, none, none, none,
   none, none⟩

/-- A keyword-argument set overriding only `is_gaussian`. -/
def gaussOnly (v : PyVal) : Overrides :=
  ⟨none, none, none, none, some v, none, none, none, none, none, none, none,
   none, none⟩

/-- The record an out-of-range store read yields (only used to make reads
total in the store model below). -/
def defaultKernel : Kernel :=
  ⟨.nonev, .nonev, .nonev, .nonev, .nonev, .nonev, .nonev, .nonev, .nonev,
   .nonev, .nonev, .nonev, .nonev, .nonev⟩

/-- An operation of the `Kernel` interface, acting on a store of live
records: construct a fresh record, or derive one from the record at a given
address by `_replace` or by `reverse`. -/
inductive KOp where
  | construct (var1 nngp var2 ntk is_gaussian is_reversed marginal cross
      shape1 shape2 x1_is_x2 is_input mask1 mask2 : PyVal)
  | replaceAt (addr : Nat) (o : Overrides)
  | reverseAt (addr : Nat)

/-- One operation on the store: each operation allocates its result as a
fresh record at the end of the store and writes to no existing cell — the
embedding of the fact that every `Kernel` operation returns a new namedtuple
and none mutates an existing one in place. -/
def stepOp (cells : List Kernel) : KOp → List Kernel
  | .construct v1 ng v2 nt ig ir mg cr s1 s2 xx ii m1 m2 =>
      cells ++ [Kernel.new v1 ng v2 nt ig ir mg cr s1 s2 xx ii m1 m2]
  | .replaceAt addr o => cells ++ [(cells.getD addr defaultKernel).replace o]
  | .reverseAt addr => cells ++ [(cells.getD addr defaultKernel).reverse]

/-- Run a sequence of operations against a store of live records. -/
def runOps (cells : List Kernel) (ops : List KOp) : List Kernel :=
  ops.foldl stepOp cells

/-- A concrete record with two spatial axis pairs (NHWC inputs of shape
`(2, 3, 4, 1)`), `marginal = OVER_POINTS`, `cross = NO`: `var1` is a
batch-leading 5-axis array, `nngp` a 6-axis array, `var2`/`ntk` absent. -/
def k2 : Kernel :=
  ⟨.arrv ⟨[2, 3, 3, 4, 4], fun idx => (idx.getD 1 0 : Int) + 10⟩,
   .arrv ⟨[2, 2, 3, 3, 4, 4], fun idx => (idx.getD 4 0 : Int)⟩,
   .nonev, .nonev, .boolv true, .boolv false, .intv 3, .intv 4,
   .shapev [2, 3, 4, 1], .shapev [2, 3, 4, 1], .boolv true, .boolv false,
   .nonev, .nonev⟩

/-- A keyword-argument set overriding only `var1`, used as concrete data. -/
def o4 : Overrides :=
  ⟨some (.marg .OVER_POINTS), none, none, none, none, none, none, none,
   none, none, none, none, none, none⟩

/-- A concrete fully-connected-shaped record: `shape1 = (3, 8)` has no
spatial dimensions. -/
def k7 : Kernel :=
  ⟨.arrv ⟨[3], fun _ => 2⟩, .arrv ⟨[3, 3], fun _ => 5⟩, .nonev,
   .arrv ⟨[3, 3], fun _ => 7⟩, .boolv true, .boolv true, .intv 0, .intv 0,
   .shapev [3, 8], .shapev [3, 8], .boolv true, .boolv true, .nonev, .nonev⟩

theorem revPerm_invol (n S : Nat) (h2 : 2 * S ≤ n) (i : Nat) :
    revPerm n S (revPerm n S i) = i := by
  unfold revPerm
  split_ifs <;> omega

theorem revPerm_lt (n S : Nat) (h2 : 2 * S ≤ n) (i : Nat) (hi : i < n) :
    revPerm n S i < n := by
  unfold revPerm
  split_ifs <;> omega

theorem revPerm_zero (n i : Nat) : revPerm n 0 i = i := by
  unfold revPerm
  split_ifs <;> omega

theorem permuteIdx_length (σ : Nat → Nat) (l : List Nat) :
    (permuteIdx σ l).length = l.length := by
  simp [permuteIdx]

theorem permuteIdx_getElem (σ : Nat → Nat) (l : List Nat) (i : Nat)
    (h : i < (permuteIdx σ l).length) :
    (permuteIdx σ l).get ⟨i, h⟩ = l.getD (σ i) 0 := by
  simp [permuteIdx]

theorem permuteIdx_getD (σ : Nat → Nat) (l : List Nat) (i : Nat)
    (h : i < l.length) :
    (permuteIdx σ l).getD i 0 = l.getD (σ i) 0 := by
  have hlen : i < (permuteIdx σ l).length := by
    rw [permuteIdx_length]; exact h
  rw [List.getD_eq_getElem _ _ hlen]
  exact permuteIdx_getElem σ l i hlen

theorem permuteIdx_perm_perm (n S : Nat) (hS : 2 * S ≤ n) (l : List Nat)
    (hl : l.length = n) :
    permuteIdx (revPerm n S) (permuteIdx (revPerm n S) l) = l := by
  apply List.ext_get
  · rw [permuteIdx_length, permuteIdx_length]
  · intro i hia hib
    have hi : i < n := by rw [hl] at hib; exact hib
    rw [permuteIdx_getElem,
      permuteIdx_getD _ _ _ (by rw [hl]; exact revPerm_lt n S hS i hi),
      revPerm_invol n S hS i]
    exact (List.getD_eq_getElem l 0 hib).trans
      (List.get_eq_getElem l ⟨i, hib⟩).symm

theorem permuteIdx_id (σ : Nat → Nat) (hσ : ∀ i, σ i = i) (l : List Nat) :
    permuteIdx σ l = l := by
  apply List.ext_get
  · rw [permuteIdx_length]
  · intro i hia hib
    rw [permuteIdx_getElem, hσ]
    exact (List.getD_eq_getElem l 0 hib).trans
      (List.get_eq_getElem l ⟨i, hib⟩).symm

theorem revert_revert (v s1 : PyVal) (h : covOk v s1 = true) :
    pyValEq (pyCoerce (revert_zipped (pyCoerce (revert_zipped v s1)) s1)) v := by
  cases v with
  | arrv a =>
      have hS : 2 * spatialCount s1 ≤ a.shape.length := by
        simpa [covOk] using h
      simp only [revert_zipped, pyCoerce, pyValEq, permuteIdx_length]
      constructor
      · exact permuteIdx_perm_perm a.shape.length (spatialCount s1) hS a.shape rfl
      · intro idx hidx
        rw [permuteIdx_length, permuteIdx_length] at hidx
        simp only [permuteIdx_perm_perm a.shape.length (spatialCount s1) hS idx hidx]
  | nonev => simp [revert_zipped, pyCoerce, pyValEq]
  | marg m => simp [covOk] at h
  | intv n => simp [covOk] at h
  | boolv b => simp [covOk] at h
  | shapev s => simp [covOk] at h
  | objv t => simp [covOk] at h

theorem revert_zipped_no_spatial (v : PyVal) (s : List Nat)
    (hlen : s.length ≤ 2) : revert_zipped v (.shapev s) = v := by
  cases v with
  | arrv a =>
      have hS : spatialCount (.shapev s) = 0 := by
        simp [spatialCount]; omega
      simp only [revert_zipped, hS]
      have hid : ∀ i, revPerm a.shape.length 0 i = i :=
        fun i => revPerm_zero a.shape.length i
      congr 1
      have hsh : permuteIdx (revPerm a.shape.length 0) a.shape = a.shape :=
        permuteIdx_id _ hid a.shape
      have hel : (fun idx => a.el (permuteIdx (revPerm a.shape.length 0) idx))
          = a.el := by
        funext idx
        rw [permuteIdx_id _ hid idx]
      calc (⟨permuteIdx (revPerm a.shape.length 0) a.shape,
              fun idx => a.el (permuteIdx (revPerm a.shape.length 0) idx)⟩ : NdArr)
          = ⟨a.shape, a.el⟩ := by rw [hsh, hel]
        _ = a := rfl
  | nonev => rfl
  | marg m => rfl
  | intv n => rfl
  | boolv b => rfl
  | shapev s2 => rfl
  | objv t => rfl

theorem stepOp_append (cells : List Kernel) (op : KOp) :
    ∃ k, stepOp cells op = cells ++ [k] := by
  cases op with
  | construct v1 ng v2 nt ig ir mg cr s1 s2 xx ii m1 m2 => exact ⟨_, rfl⟩
  | replaceAt addr o => exact ⟨_, rfl⟩
  | reverseAt addr => exact ⟨_, rfl⟩

theorem pyCoerce_id_of_isCov (v : PyVal) (h : isCov v = true) :
    pyCoerce v = v := by
  cases v <;> first | rfl | simp [isCov] at h

/-- C5: `Marginalisation` provides exactly five distinct values with ordinals
`OVER_ALL = 0`, `OVER_PIXELS_AND_POINTS = 1`, `OVER_PIXELS = 2`,
`OVER_POINTS = 3`, `NO = 4`, and whenever `a`'s ordinal is less than `b`'s,
`a < b` holds and `a ≠ b` holds. -/
theorem marginalisation_order :
    (allMarg.length = 5 ∧ allMarg.Nodup ∧ ∀ m : Marginalisation, m ∈ allMarg) ∧
    (Marginalisation.OVER_ALL.toOrd = 0 ∧
     Marginalisation.OVER_PIXELS_AND_POINTS.toOrd = 1 ∧
     Marginalisation.OVER_PIXELS.toOrd = 2 ∧
     Marginalisation.OVER_POINTS.toOrd = 3 ∧
     Marginalisation.NO.toOrd = 4) ∧
    ∀ a b : Marginalisation,
      a.toOrd < b.toOrd → Marginalisation.lt a b = true ∧ a ≠ b := by
  decide

/-- Witness for C5 at `a = OVER_ALL`, `b = NO`. -/
theorem marginalisation_order_witness :
    Marginalisation.lt .OVER_ALL .NO = true ∧
    Marginalisation.OVER_ALL ≠ Marginalisation.NO :=
  marginalisation_order.2.2 .OVER_ALL .NO (by decide)

/-- C6: construction performs no validation beyond the `marginal`/`cross`
coercion: for every combination of the fourteen arguments, `Kernel.__new__`
returns a fully populated record whose fields equal the given arguments
(after coercion of `marginal` and `cross`) and never raises — in this
embedding, `Kernel.new` is a total function and every field provably equals
its argument. -/
theorem new_no_validation (v1 ng v2 nt ig ir mg cr s1 s2 xx ii m1 m2 : PyVal) :
    (Kernel.new v1 ng v2 nt ig ir mg cr s1 s2 xx ii m1 m2).var1 = v1 ∧
    (Kernel.new v1 ng v2 nt ig ir mg cr s1 s2 xx ii m1 m2).nngp = ng ∧
    (Kernel.new v1 ng v2 nt ig ir mg cr s1 s2 xx ii m1 m2).var2 = v2 ∧
    (Kernel.new v1 ng v2 nt ig ir mg cr s1 s2 xx ii m1 m2).ntk = nt ∧
    (Kernel.new v1 ng v2 nt ig ir mg cr s1 s2 xx ii m1 m2).is_gaussian = ig ∧
    (Kernel.new v1 ng v2 nt ig ir mg cr s1 s2 xx ii m1 m2).is_reversed = ir ∧
    (Kernel.new v1 ng v2 nt ig ir mg cr s1 s2 xx ii m1 m2).marginal = pyCoerce mg ∧
    (Kernel.new v1 ng v2 nt ig ir mg cr s1 s2 xx ii m1 m2).cross = pyCoerce cr ∧
    (Kernel.new v1 ng v2 nt ig ir mg cr s1 s2 xx ii m1 m2).shape1 = s1 ∧
    (Kernel.new v1 ng v2 nt ig ir mg cr s1 s2 xx ii m1 m2).shape2 = s2 ∧
    (Kernel.new v1 ng v2 nt ig ir mg cr s1 s2 xx ii m1 m2).x1_is_x2 = xx ∧
    (Kernel.new v1 ng v2 nt ig ir mg cr s1 s2 xx ii m1 m2).is_input = ii ∧
    (Kernel.new v1 ng v2 nt ig ir mg cr s1 s2 xx ii m1 m2).mask1 = m1 ∧
    (Kernel.new v1 ng v2 nt ig ir mg cr s1 s2 xx ii m1 m2).mask2 = m2 :=
  ⟨rfl, rfl, rfl, rfl, rfl, rfl, rfl, rfl, rfl, rfl, rfl, rfl, rfl, rfl⟩

/-- C3: for every record `k`, `k.reverse()` replaces exactly `var1`, `nngp`,
`var2` and `ntk` by the un-zip helper `revert_zipped` applied with `shape1`
(routed through `_replace`, hence the coercion wrapper), sets `is_reversed`
to the logical NOT of its previous value, and leaves every other field
equal to the corresponding field of `k`. -/
theorem reverse_frame (k : Kernel) :
    k.reverse.var1 = pyCoerce (revert_zipped k.var1 k.shape1) ∧
    k.reverse.nngp = pyCoerce (revert_zipped k.nngp k.shape1) ∧
    k.reverse.var2 = pyCoerce (revert_zipped k.var2 k.shape1) ∧
    k.reverse.ntk = pyCoerce (revert_zipped k.ntk k.shape1) ∧
    k.reverse.is_reversed = pyNot k.is_reversed ∧
    k.reverse.is_gaussian = k.is_gaussian ∧
    k.reverse.marginal = k.marginal ∧
    k.reverse.cross = k.cross ∧
    k.reverse.shape1 = k.shape1 ∧
    k.reverse.shape2 = k.shape2 ∧
    k.reverse.x1_is_x2 = k.x1_is_x2 ∧
    k.reverse.is_input = k.is_input ∧
    k.reverse.mask1 = k.mask1 ∧
    k.reverse.mask2 = k.mask2 :=
  ⟨rfl, rfl, rfl, rfl, rfl, rfl, rfl, rfl, rfl, rfl, rfl, rfl, rfl, rfl⟩

/-- C9: the `_replace` coercion is keyed on the value, not the field name —
any overridden value that is a `Marginalisation` member is stored as its
ordinal regardless of the target field (e.g. `is_gaussian = NO` is stored as
the integer 4) — while `__new__` coerces only `marginal` and `cross` and
stores a `Marginalisation` member given as `is_gaussian` unchanged. -/
theorem replace_coercion_value_keyed (k : Kernel) (v : PyVal)
    (m : Marginalisation) (v1 ng v2 nt ir cr s1 s2 xx ii m1 m2 : PyVal) :
    (k.replace (gaussOnly v)).is_gaussian = pyCoerce v ∧
    (k.replace (gaussOnly (.marg .NO))).is_gaussian = .intv 4 ∧
    (Kernel.new v1 ng v2 nt (.marg m) ir (.marg m) cr s1 s2 xx ii m1
      m2).is_gaussian = .marg m ∧
    (Kernel.new v1 ng v2 nt (.marg m) ir (.marg m) cr s1 s2 xx ii m1
      m2).marginal = .intv m.toOrd :=
  ⟨rfl, rfl, rfl, rfl⟩

/-- C1: any `Marginalisation` member or valid ordinal int passed as
`marginal`/`cross` to construction or replacement is stored as the plain
ordinal integer, reading it back yields exactly that ordinal, and `reverse`
(the remaining Kernel-producing operation) preserves the stored
`marginal`/`cross` fields. -/
theorem marginal_stored_as_ordinal (v : PyVal) (hv : validOrd v = true)
    (v1 ng v2 nt ig ir s1 s2 xx ii m1 m2 : PyVal) (cr : PyVal) (k : Kernel) :
    (Kernel.new v1 ng v2 nt ig ir v cr s1 s2 xx ii m1 m2).marginal
      = .intv (ordinalOf v) ∧
    (Kernel.new v1 ng v2 nt ig ir cr v s1 s2 xx ii m1 m2).cross
      = .intv (ordinalOf v) ∧
    (k.replace (margOnly v)).marginal = .intv (ordinalOf v) ∧
    (k.replace (crossOnly v)).cross = .intv (ordinalOf v) ∧
    k.reverse.marginal = k.marginal ∧ k.reverse.cross = k.cross := by
  cases v <;>
    first
      | exact ⟨rfl, rfl, rfl, rfl, rfl, rfl⟩
      | simp [validOrd] at hv

/-- Witness for C1: the enum member `OVER_PIXELS` given as `marginal` is
stored as the plain integer 2. -/
theorem marginal_stored_as_ordinal_witness :
    (Kernel.new .nonev .nonev .nonev .nonev .nonev .nonev
      (.marg .OVER_PIXELS) .nonev .nonev .nonev .nonev .nonev .nonev
      .nonev).marginal = .intv 2 :=
  (marginal_stored_as_ordinal (.marg .OVER_PIXELS) (by decide) .nonev .nonev
    .nonev .nonev .nonev .nonev .nonev .nonev .nonev .nonev .nonev .nonev
    .nonev defaultKernel).1

/-- C10: a value that is not a `Marginalisation` member, passed as
`marginal` or `cross` to construction or replacement, is stored exactly as
given, with no conversion, range check or error. -/
theorem non_marg_passthrough (v : PyVal) (hv : isMarg v = false)
    (v1 ng v2 nt ig ir s1 s2 xx ii m1 m2 cr : PyVal) (k : Kernel) :
    pyCoerce v = v ∧
    (Kernel.new v1 ng v2 nt ig ir v cr s1 s2 xx ii m1 m2).marginal = v ∧
    (Kernel.new v1 ng v2 nt ig ir cr v s1 s2 xx ii m1 m2).cross = v ∧
    (k.replace (margOnly v)).marginal = v ∧
    (k.replace (crossOnly v)).cross = v := by
  have hc : pyCoerce v = v := by
    cases v <;> first | rfl | simp [isMarg] at hv
  exact ⟨hc, hc, hc, hc, hc⟩

/-- Witness for C10: the out-of-range int 17 given as `marginal` is stored
as the int 17. -/
theorem non_marg_passthrough_witness :
    (defaultKernel.replace (margOnly (.intv 17))).marginal = .intv 17 :=
  (non_marg_passthrough (.intv 17) (by decide) .nonev .nonev .nonev .nonev
    .nonev .nonev .nonev .nonev .nonev .nonev .nonev .nonev .nonev
    defaultKernel).2.2.2.1

/-- C2: for every record with a well-formed pairable spatial layout
(`marginal`/`cross` at `OVER_POINTS`/`NO` or higher, boolean `is_reversed`,
and covariance entries that are `None` or arrays with axis pairs keyed by
`shape1`), `k.reverse().reverse()` equals `k` in `var1`, `nngp`, `var2`,
`ntk` (by array content) and in `is_reversed`. -/
theorem reverse_reverse_id (k : Kernel) (b : Bool)
    (hb : k.is_reversed = .boolv b)
    (hm : margAtLeast k.marginal 3 = true)
    (hc : margAtLeast k.cross 4 = true)
    (h1 : covOk k.var1 k.shape1 = true) (h2 : covOk k.nngp k.shape1 = true)
    (h3 : covOk k.var2 k.shape1 = true) (h4 : covOk k.ntk k.shape1 = true) :
    pyValEq k.reverse.reverse.var1 k.var1 ∧
    pyValEq k.reverse.reverse.nngp k.nngp ∧
    pyValEq k.reverse.reverse.var2 k.var2 ∧
    pyValEq k.reverse.reverse.ntk k.ntk ∧
    k.reverse.reverse.is_reversed = k.is_reversed := by
  refine ⟨revert_revert _ _ h1, revert_revert _ _ h2, revert_revert _ _ h3,
    revert_revert _ _ h4, ?_⟩
  have hrr : k.reverse.reverse.is_reversed
      = pyCoerce (pyNot (pyCoerce (pyNot k.is_reversed))) := rfl
  rw [hrr, hb]
  cases b <;> rfl

/-- Witness for C2 on a concrete record with two spatial axis pairs. -/
theorem reverse_reverse_id_witness :
    k2.reverse.reverse.is_reversed = k2.is_reversed ∧
    pyValEq k2.reverse.reverse.var1 k2.var1 :=
  ⟨(reverse_reverse_id k2 false rfl (by decide) (by decide) (by decide)
      (by decide) (by decide) (by decide)).2.2.2.2,
   (reverse_reverse_id k2 false rfl (by decide) (by decide) (by decide)
      (by decide) (by decide) (by decide)).1⟩

/-- C4: `k.with_fields(**S)` (`Kernel._replace`) equals `k` in every field
not named in `S`, carries the override value (after the
`Marginalisation`-to-int coercion) in every field named in `S`, and (being a
pure function on an immutable record, cf. the store model below) leaves the
receiver unmodified. -/
theorem replace_frame (k : Kernel) (o : Overrides) :
    (o.var1 = none → (k.replace o).var1 = k.var1) ∧
    (∀ v, o.var1 = some v → (k.replace o).var1 = pyCoerce v) ∧
    (o.nngp = none → (k.replace o).nngp = k.nngp) ∧
    (∀ v, o.nngp = some v → (k.replace o).nngp = pyCoerce v) ∧
    (o.var2 = none → (k.replace o).var2 = k.var2) ∧
    (∀ v, o.var2 = some v → (k.replace o).var2 = pyCoerce v) ∧
    (o.ntk = none → (k.replace o).ntk = k.ntk) ∧
    (∀ v, o.ntk = some v → (k.replace o).ntk = pyCoerce v) ∧
    (o.is_gaussian = none → (k.replace o).is_gaussian = k.is_gaussian) ∧
    (∀ v, o.is_gaussian = some v → (k.replace o).is_gaussian = pyCoerce v) ∧
    (o.is_reversed = none → (k.replace o).is_reversed = k.is_reversed) ∧
    (∀ v, o.is_reversed = some v → (k.replace o).is_reversed = pyCoerce v) ∧
    (o.marginal = none → (k.replace o).marginal = k.marginal) ∧
    (∀ v, o.marginal = some v → (k.replace o).marginal = pyCoerce v) ∧
    (o.cross = none → (k.replace o).cross = k.cross) ∧
    (∀ v, o.cross = some v → (k.replace o).cross = pyCoerce v) ∧
    (o.shape1 = none → (k.replace o).shape1 = k.shape1) ∧
    (∀ v, o.shape1 = some v → (k.replace o).shape1 = pyCoerce v) ∧
    (o.shape2 = none → (k.replace o).shape2 = k.shape2) ∧
    (∀ v, o.shape2 = some v → (k.replace o).shape2 = pyCoerce v) ∧
    (o.x1_is_x2 = none → (k.replace o).x1_is_x2 = k.x1_is_x2) ∧
    (∀ v, o.x1_is_x2 = some v → (k.replace o).x1_is_x2 = pyCoerce v) ∧
    (o.is_input = none → (k.replace o).is_input = k.is_input) ∧
    (∀ v, o.is_input = some v → (k.replace o).is_input = pyCoerce v) ∧
    (o.mask1 = none → (k.replace o).mask1 = k.mask1) ∧
    (∀ v, o.mask1 = some v → (k.replace o).mask1 = pyCoerce v) ∧
    (o.mask2 = none → (k.replace o).mask2 = k.mask2) ∧
    (∀ v, o.mask2 = some v → (k.replace o).mask2 = pyCoerce v) := by
  refine ⟨?_, ?_, ?_, ?_, ?_, ?_, ?_, ?_, ?_, ?_, ?_, ?_, ?_, ?_, ?_, ?_,
    ?_, ?_, ?_, ?_, ?_, ?_, ?_, ?_, ?_, ?_, ?_, ?_⟩ <;>
    · intros
      simp_all [Kernel.replace, applyOv]

/-- Witness for C4: overriding only `var1` stores the coerced value there
and leaves `nngp` unchanged. -/
theorem replace_frame_witness :
    (defaultKernel.replace o4).var1 = pyCoerce (.marg .OVER_POINTS) ∧
    (defaultKernel.replace o4).nngp = defaultKernel.nngp :=
  ⟨(replace_frame defaultKernel o4).2.1 (.marg .OVER_POINTS) rfl,
   (replace_frame defaultKernel o4).2.2.1 rfl⟩

/-- C7: on a record whose `shape1` has no spatial dimensions, `reverse`
leaves `var1`, `nngp`, `var2` and `ntk` unchanged (reversing zero axis pairs
is a content no-op) while still setting `is_reversed` to the logical NOT of
its previous value. -/
theorem reverse_no_spatial_content (k : Kernel) (s : List Nat) (b : Bool)
    (hs : k.shape1 = .shapev s) (hlen : s.length ≤ 2)
    (hb : k.is_reversed = .boolv b)
    (h1 : isCov k.var1 = true) (h2 : isCov k.nngp = true)
    (h3 : isCov k.var2 = true) (h4 : isCov k.ntk = true) :
    k.reverse.var1 = k.var1 ∧ k.reverse.nngp = k.nngp ∧
    k.reverse.var2 = k.var2 ∧ k.reverse.ntk = k.ntk ∧
    k.reverse.is_reversed = .boolv (!b) := by
  have hv1 : k.reverse.var1 = pyCoerce (revert_zipped k.var1 k.shape1) := rfl
  have hv2 : k.reverse.nngp = pyCoerce (revert_zipped k.nngp k.shape1) := rfl
  have hv3 : k.reverse.var2 = pyCoerce (revert_zipped k.var2 k.shape1) := rfl
  have hv4 : k.reverse.ntk = pyCoerce (revert_zipped k.ntk k.shape1) := rfl
  have hv5 : k.reverse.is_reversed = pyCoerce (pyNot k.is_reversed) := rfl
  refine ⟨?_, ?_, ?_, ?_, ?_⟩
  · rw [hv1, hs, revert_zipped_no_spatial _ s hlen, pyCoerce_id_of_isCov _ h1]
  · rw [hv2, hs, revert_zipped_no_spatial _ s hlen, pyCoerce_id_of_isCov _ h2]
  · rw [hv3, hs, revert_zipped_no_spatial _ s hlen, pyCoerce_id_of_isCov _ h3]
  · rw [hv4, hs, revert_zipped_no_spatial _ s hlen, pyCoerce_id_of_isCov _ h4]
  · rw [hv5, hb]; cases b <;> rfl

/-- Witness for C7 on a concrete fully-connected-shaped record. -/
theorem reverse_no_spatial_content_witness :
    k7.reverse.var1 = k7.var1 ∧ k7.reverse.is_reversed = .boolv false :=
  ⟨(reverse_no_spatial_content k7 [3, 8] true rfl (by decide) rfl (by decide)
      (by decide) (by decide) (by decide)).1,
   (reverse_no_spatial_content k7 [3, 8] true rfl (by decide) rfl (by decide)
      (by decide) (by decide) (by decide)).2.2.2.2⟩

/-- C8: the `Kernel` record is immutable — in the store model, every
operation (construction, `_replace`, `reverse`) allocates a fresh record and
never writes to an existing cell, so after any sequence of operations every
previously live record still holds exactly its fields from construction. -/
theorem kernel_immutable (cells : List Kernel) (ops : List KOp) (i : Nat)
    (h : i < cells.length) :
    (runOps cells ops).getD i defaultKernel = cells.getD i defaultKernel := by
  induction ops generalizing cells with
  | nil => rfl
  | cons op rest ih =>
      obtain ⟨knew, hop⟩ := stepOp_append cells op
      have hlen : i < (stepOp cells op).length := by
        rw [hop, List.length_append]
        simp only [List.length_cons, List.length_nil]
        omega
      calc (runOps cells (op :: rest)).getD i defaultKernel
          = (runOps (stepOp cells op) rest).getD i defaultKernel := rfl
        _ = (stepOp cells op).getD i defaultKernel := ih (stepOp cells op) hlen
        _ = cells.getD i defaultKernel := by
            rw [hop]; exact List.getD_append _ _ _ _ h

/-- Witness for C8: a record stored before a `reverse` call is unchanged
after it. -/
theorem kernel_immutable_witness :
    (runOps [defaultKernel] [KOp.reverseAt 0]).getD 0 defaultKernel
      = [defaultKernel].getD 0 defaultKernel :=
  kernel_immutable [defaultKernel] [KOp.reverseAt 0] 0 (by decide)

end NT
